import Mathlib

/-
Shallow embedding of the transcript pipeline of the yt_dlp_transcript
repository (src/utils.py, src/transcript_processor.py,
src/url_extract_test.py).  Strings are modelled as Lean `String`
(lists of unicode code points, as in Python 3), times as `Rat`.

Modelling notes, stated once:
 - Python `\s`, `str.strip()` and `str.split()` recognise all unicode
   whitespace; the model covers the ASCII whitespace characters, which are
   the only whitespace characters the repository's data paths produce.
 - Python `int(...)` / `float(...)` also accept underscores between digits
   and non-ASCII digits; the model covers ASCII digits with an optional
   sign (and for float a fraction and exponent), which is what appears in
   caption payloads.
 - `str.lower()` is modelled on ASCII letters (identity on the Japanese
   ranges, as in Python).
 - `urllib.parse` percent-decoding and `+`-decoding of query values are
   not modelled; the claims under study do not depend on them.
-/

/-- Whitespace as recognised by Python `str.strip` / `\s` (ASCII part). -/
def pyWs (c : Char) : Bool :=
  c = ' ' || c = '\t' || c = '\n' || c = '\x0b' || c = '\x0c' || c = '\r'

/-- Right trim: drop trailing whitespace (structural helper for strip). -/
def trimRight : List Char → List Char
  | [] => []
  | c :: rest =>
    match trimRight rest with
    | [] => if pyWs c then [] else [c]
    | d :: ds => c :: d :: ds

/-- Python `str.strip()` on a list of characters. -/
def pyStripL (xs : List Char) : List Char :=
  trimRight (xs.dropWhile pyWs)

/-- Python `str.strip()`. -/
def pyStrip (s : String) : String :=
  ⟨pyStripL s.data⟩

/-- Python `str.split(sep)` for a single-character separator. -/
def splitCh (sep : Char) : List Char → List (List Char)
  | [] => [[]]
  | c :: rest =>
    match splitCh sep rest with
    | [] => [[]]
    | h :: t => if c = sep then [] :: h :: t else (c :: h) :: t

/-- Python `str.split(sep)` for a multi-character separator (left-to-right,
non-overlapping).  Written with a fuel argument so that the recursion is
structural and the kernel can evaluate it; the fuel equals the input length
and each step consumes at least one character, so the fuel-exhausted arm is
never reached from the wrapper.  The empty separator raises in Python and
is unused (the wrapper returns the input whole for it). -/
def splitSubGo (sep : List Char) : Nat → List Char → List (List Char)
  | _, [] => [[]]
  | 0, xs => [xs]
  | fuel + 1, c :: rest =>
    if sep.isPrefixOf (c :: rest) then
      [] :: splitSubGo sep fuel ((c :: rest).drop sep.length)
    else
      match splitSubGo sep fuel rest with
      | [] => [[c]]
      | h :: t => (c :: h) :: t

def splitSub (sep : List Char) (xs : List Char) : List (List Char) :=
  if sep = [] then [xs] else splitSubGo sep xs.length xs

/-- Python `str.replace(pat, '')` (left-to-right, non-overlapping removal),
fuelled like `splitSubGo`.  The empty pattern is unused by the source. -/
def removeAllGo (pat : List Char) : Nat → List Char → List Char
  | _, [] => []
  | 0, xs => xs
  | fuel + 1, c :: rest =>
    if pat.isPrefixOf (c :: rest) then
      removeAllGo pat fuel ((c :: rest).drop pat.length)
    else
      c :: removeAllGo pat fuel rest

def removeAll (pat : List Char) (xs : List Char) : List Char :=
  if pat = [] then xs else removeAllGo pat xs.length xs

/-- Python `re.sub(r'\s+', ' ', …)`: collapse every whitespace run to one
space. -/
def collapseWs : List Char → List Char
  | [] => []
  | c :: rest =>
    if pyWs c then
      match collapseWs rest with
      | ' ' :: ds => ' ' :: ds
      | ds => ' ' :: ds
    else c :: collapseWs rest

/-- The hiragana / katakana / CJK ranges of utils.py line 52. -/
def isJaChar (c : Char) : Bool :=
  (0x3040 ≤ c.toNat && c.toNat ≤ 0x309F) ||
  (0x30A0 ≤ c.toNat && c.toNat ≤ 0x30FF) ||
  (0x4E00 ≤ c.toNat && c.toNat ≤ 0x9FAF)

/-- Python `re.sub(f'({ja})\s+({ja})', r'\1\2', …)`: remove a whitespace
run sitting between two Japanese characters.  Like `re.sub`, matches are
found left to right and do not overlap: scanning resumes after the second
character of a match. -/
def jaCollapseGo : Nat → List Char → List Char
  | _, [] => []
  | 0, xs => xs
  | fuel + 1, c :: rest =>
    if isJaChar c then
      match rest.drop (rest.takeWhile pyWs).length with
      | c2 :: rest3 =>
        if rest.takeWhile pyWs ≠ [] && isJaChar c2 then
          c :: c2 :: jaCollapseGo fuel rest3
        else
          c :: jaCollapseGo fuel rest
      | [] => c :: jaCollapseGo fuel rest
    else c :: jaCollapseGo fuel rest

def jaCollapse (xs : List Char) : List Char :=
  jaCollapseGo xs.length xs

/-- Python `re.sub(r'<[^>]+>', '', …)`: strip inline VTT markup tags. -/
def stripVttTagsGo : Nat → List Char → List Char
  | _, [] => []
  | 0, xs => xs
  | fuel + 1, c :: rest =>
    if c = '<' then
      match rest.drop (rest.takeWhile (fun d => d ≠ '>')).length with
      | '>' :: rest3 =>
        if rest.takeWhile (fun d => d ≠ '>') ≠ [] then
          stripVttTagsGo fuel rest3
        else
          '<' :: stripVttTagsGo fuel rest
      | _ => '<' :: stripVttTagsGo fuel rest
    else c :: stripVttTagsGo fuel rest

def stripVttTags (xs : List Char) : List Char :=
  stripVttTagsGo xs.length xs

/-- Python `sub in s` (substring containment, modelling the `in` operator
and `re` searches for fixed patterns). -/
def containsSub (pat : List Char) : List Char → Bool
  | [] => pat.isEmpty
  | c :: rest => pat.isPrefixOf (c :: rest) || containsSub pat rest

/-- Positional value of a run of ASCII digits. -/
def natVal (ds : List Char) : Nat :=
  ds.foldl (fun a c => 10 * a + (c.toNat - 48)) 0

/-- Python `int(str)`: optional surrounding whitespace, optional sign, then
a non-empty run of digits; anything else raises (here: `none`). -/
def pyInt (xs : List Char) : Option Int :=
  match pyStripL xs with
  | [] => none
  | c :: ds =>
    if c = '-' then
      if ds ≠ [] && ds.all Char.isDigit then some (-(natVal ds : Int)) else none
    else if c = '+' then
      if ds ≠ [] && ds.all Char.isDigit then some ((natVal ds : Int)) else none
    else
      if (c :: ds).all Char.isDigit then some ((natVal (c :: ds) : Int)) else none

/-- Normalised rational division `q / n` for a natural divisor, written
with `mkRat` so that the kernel can evaluate it (Rat's `/` does not reduce
there); `ratDivNat_eq_div` below shows it agrees with `q / n`. -/
def ratDivNat (q : Rat) (n : Nat) : Rat :=
  mkRat q.num (q.den * n)

/-- Value of a float literal body: ± intPart.fracPart * 10^exp, as the
exact rational (natVal (ip ++ fp) keeps the digit string's value with the
point dropped, the denominator restores it). -/
def ratOfParts (neg : Bool) (ip fp : List Char) (ex : Int) : Rat :=
  let m : Int := if neg then -(natVal (ip ++ fp) : Int) else (natVal (ip ++ fp) : Int)
  if 0 ≤ ex then mkRat (m * (10 : Int) ^ ex.toNat) ((10 : Nat) ^ fp.length)
  else mkRat m ((10 : Nat) ^ fp.length * (10 : Nat) ^ (-ex).toNat)

/-- Python `float(str)` on the decimal forms used by caption payloads:
optional whitespace and sign, digits with an optional point and an optional
exponent.  (`inf` / `nan` are not modelled; they do not occur.) -/
def pyFloat (s : String) : Option Rat :=
  let xs := pyStripL s.data
  let (neg, body) :=
    match xs with
    | '-' :: r => (true, r)
    | '+' :: r => (false, r)
    | r => (false, r)
  let ip := body.takeWhile Char.isDigit
  let r1 := body.drop ip.length
  let (fp, r2) :=
    match r1 with
    | '.' :: r => (r.takeWhile Char.isDigit, r.drop (r.takeWhile Char.isDigit).length)
    | r => ([], r)
  if ip = [] ∧ fp = [] then none
  else
    match r2 with
    | [] => some (ratOfParts neg ip fp 0)
    | e :: r3 =>
      if e = 'e' ∨ e = 'E' then
        let (eneg, ebody) :=
          match r3 with
          | '-' :: r => (true, r)
          | '+' :: r => (false, r)
          | r => (false, r)
        if ebody ≠ [] ∧ ebody.all Char.isDigit then
          some (ratOfParts neg ip fp (if eneg then -(natVal ebody : Int) else (natVal ebody : Int)))
        else none
      else none

/-- ASCII lowercasing, Python `str.lower()` restricted to ASCII letters. -/
def pyLower (s : String) : String :=
  ⟨s.data.map Char.toLower⟩

/-
utils.py
-/

/-- utils.py lines 5-7, `format_timestamp`: `str(timedelta(seconds=int(seconds)))`.
`int()` truncates toward zero; `timedelta` normalises into days plus a
nonnegative remainder and prints `H:MM:SS` with zero-padded minutes and
seconds, prefixed by the day count when it is nonzero. -/
def int_of_rat_trunc (q : Rat) : Int :=
  if 0 ≤ q then q.floor else -((-q).floor)

/-- Two-digit zero padding for minutes and seconds. -/
def pad2 (n : Nat) : String :=
  if n < 10 then "0" ++ toString n else toString n

def format_timestamp (seconds : Rat) : String :=
  let n := int_of_rat_trunc seconds
  let d := n.fdiv 86400
  let r := (n - 86400 * d).toNat
  let hms := toString (r / 3600) ++ ":" ++ pad2 (r % 3600 / 60) ++ ":" ++ pad2 (r % 60)
  if d = 0 then hms
  else toString d ++ (if d = 1 ∨ d = -1 then " day, " else " days, ") ++ hms

/-- utils.py lines 10-26, `vtt_time_to_seconds`: drop everything from the
first `.`, split on `:`; three parts are H:MM:SS, two are MM:SS, any other
shape takes `int()` of the first part; any `int()` failure is caught by the
bare `except` and yields 0. -/
def vtt_time_to_seconds (time_str : String) : Int :=
  let t0 := (splitCh '.' time_str.data).headD []
  let parts := splitCh ':' t0
  match parts with
  | [a, b, c] =>
    match pyInt a, pyInt b, pyInt c with
    | some h, some m, some s => h * 3600 + m * 60 + s
    | _, _, _ => 0
  | [a, b] =>
    match pyInt a, pyInt b with
    | some m, some s => m * 60 + s
    | _, _ => 0
  | _ =>
    match pyInt (parts.headD []) with
    | some v => v
    | none => 0

/-- utils.py line 34: the fixed Japanese indicator tokens. -/
def japanese_indicators : List String :=
  ["を", "は", "が", "に", "で", "と", "の", "です", "ます", "した", "する", "ある", "いる"]

/-- utils.py lines 29-39, `detect_video_language`: lowercase
`title + " " + description` and report "ja" iff any indicator occurs as a
substring, else "en". -/
def detect_video_language (title : String) (description : String) : String :=
  let text := pyLower (title ++ " " ++ description)
  if japanese_indicators.any (fun ind => containsSub ind.data text.data) then "ja" else "en"

/-- utils.py line 45: the music/sound tags, in source order. -/
def music_tags : List String :=
  ["[音楽]", "♪", "♫", "♬", "♩", "[拍手]", "[笑い]", "[笑]", "[音響効果]", "[効果音]"]

/-- utils.py lines 45-47: each tag replaced by the empty string, in order. -/
def removeTagsCore (xs : List Char) : List Char :=
  music_tags.foldl (fun acc tag => removeAll tag.data acc) xs

/-- utils.py lines 42-63, `clean_japanese_text` on a character list: remove
tags, collapse whitespace between Japanese characters, collapse remaining
whitespace runs, strip. -/
def cleanJaCore (xs : List Char) : List Char :=
  pyStripL (collapseWs (jaCollapse (removeTagsCore xs)))

def clean_japanese_text (text : String) : String :=
  ⟨cleanJaCore text.data⟩

/-
transcript_processor.py: caption track selection (lines 46-85).
-/

/-- One entry of a yt-dlp subtitle track list (a dict with `ext`, `url`). -/
structure FormatItem where
  ext : String
  url : String
deriving DecidableEq

/-- transcript_processor.py lines 46-49: the language priority list. -/
def preferred_languages (detected_language : String) : List String :=
  if detected_language = "ja" then ["ja", "ja-JP", "en", "en-US", "en-GB"]
  else ["en", "en-US", "en-GB", "ja", "ja-JP"]

/-- The `for lang_code in preferred_languages: if lang_code in d: … break`
loop: the first preferred language that is a key of the mapping, with its
value.  Mappings are association lists with the dict's key order. -/
def walkPref (prefs : List String) (m : List (String × List FormatItem)) :
    Option (String × List FormatItem) :=
  match prefs with
  | [] => none
  | l :: rest =>
    match m.lookup l with
    | some d => some (l, d)
    | none => walkPref rest m

/-- Python truthiness of `transcript_data` (`if not transcript_data`): an
empty track list is falsy. -/
def track_truthy : Option (List FormatItem × String) → Bool
  | some (d, _) => !d.isEmpty
  | none => false

/-- transcript_processor.py lines 46-85: the selection logic of
`get_video_info_and_transcript` (manual walk, automatic walk, first-key
fallbacks, final truthiness check), returning the chosen track list and the
`transcript_type` label. -/
def get_transcript_selection (detected_language : String)
    (subtitles automatic_captions : List (String × List FormatItem)) :
    Option (List FormatItem × String) :=
  let prefs := preferred_languages detected_language
  let td1 := (walkPref prefs subtitles).map
    (fun p => (p.2, "Manual (" ++ p.1 ++ ")"))
  let td2 :=
    if track_truthy td1 then td1
    else (walkPref prefs automatic_captions).map
      (fun p => (p.2, "Auto-generated (" ++ p.1 ++ ")"))
  let td3 :=
    if track_truthy td2 then td2
    else
      match subtitles with
      | (l, d) :: _ => some (d, "Manual (" ++ l ++ ")")
      | [] =>
        match automatic_captions with
        | (l, d) :: _ => some (d, "Auto-generated (" ++ l ++ ")")
        | [] => none
  if track_truthy td3 then td3 else none

/-
transcript_processor.py: format picking (lines 95-109).
-/

/-- transcript_processor.py lines 96-105: the loop state is `best_format`;
`json3` breaks immediately, `vtt` and `srv1` only fill an empty slot. -/
def bestFormatLoop (best_format : Option FormatItem) : List FormatItem → Option FormatItem
  | [] => best_format
  | item :: rest =>
    if item.ext = "json3" then some item
    else if item.ext = "vtt" && best_format.isNone then bestFormatLoop (some item) rest
    else if item.ext = "srv1" && best_format.isNone then bestFormatLoop (some item) rest
    else bestFormatLoop best_format rest

/-- The picked format of `download_and_parse_transcript`; `none` is the
"No suitable transcript format found" failure. -/
def find_best_format (transcript_data : List FormatItem) : Option FormatItem :=
  bestFormatLoop none transcript_data

/-
transcript_processor.py: the three decoders.
-/

/-- One decoded caption cue (`{'text': …, 'start': …, 'duration': …}`). -/
structure Cue where
  text : String
  start : Rat
  duration : Rat
deriving DecidableEq

/-- One segment of a json3 event (a dict that may carry `utf8`).  The json3
decoder is modelled from the point after `json.loads`: payloads of the
expected shape are typed, the stdlib JSON parser itself is outside the
embedding boundary. -/
structure Json3Seg where
  utf8 : Option String
deriving DecidableEq

/-- One json3 event: optional `tStartMs` / `dDurationMs` (milliseconds) and
an optional `segs` list (`'segs' in event`). -/
structure Json3Event where
  tStartMs : Option Rat
  dDurationMs : Option Rat
  segs : Option (List Json3Seg)
deriving DecidableEq

/-- The decoded json3 document: an optional `events` list
(`data.get('events', [])`). -/
structure Json3Data where
  events : Option (List Json3Event)
deriving DecidableEq

/-- transcript_processor.py lines 143-159: events with a `segs` list
contribute a cue when the joined, stripped text is non-empty. -/
def parse_json3_events : List Json3Event → List Cue
  | [] => []
  | e :: rest =>
    match e.segs with
    | none => parse_json3_events rest
    | some segs =>
      let text := pyStrip (String.join (segs.filterMap (fun s => s.utf8)))
      if text ≠ "" then
        { text := text
          start := ratDivNat (e.tStartMs.getD 0) 1000
          duration := ratDivNat (e.dDurationMs.getD 0) 1000 } :: parse_json3_events rest
      else parse_json3_events rest

/-- transcript_processor.py lines 137-163, `parse_json3_transcript`. -/
def parse_json3_transcript (data : Json3Data) : List Cue :=
  parse_json3_events (data.events.getD [])

/-- transcript_processor.py lines 166-204, `parse_vtt_transcript`: the
`while i < len(lines)` loop.  A stripped line containing `-->` opens a cue:
the left half of `split(' --> ')` is parsed with `vtt_time_to_seconds`, the
following non-blank lines are stripped, joined with spaces and tag-stripped,
and a cue is kept iff that text is non-empty; scanning resumes after the
blank line.  None of the string operations can raise, so the function's
bare-except `return None` branch is unreachable and the result is the list
itself. -/
def vttLoopGo : Nat → List String → List Cue
  | _, [] => []
  | 0, _ => []
  | fuel + 1, line :: rest =>
    let l := pyStrip line
    if containsSub ("-->".data) l.data then
      let timeParts := splitSub (" --> ".data) l.data
      let start := vtt_time_to_seconds ⟨timeParts.headD []⟩
      let textLines := rest.takeWhile (fun s => pyStrip s ≠ "")
      let rest2 := rest.drop textLines.length
      let text : String := ⟨stripVttTags (String.intercalate " " (textLines.map pyStrip)).data⟩
      (if text ≠ "" then [Cue.mk text (start : Rat) 0] else []) ++
        vttLoopGo fuel (rest2.drop 1)
    else vttLoopGo fuel rest

def vttLoop (lines : List String) : List Cue :=
  vttLoopGo lines.length lines

def parse_vtt_transcript (content : String) : List Cue :=
  vttLoop ((splitCh '\n' content.data).map (fun piece => (⟨piece⟩ : String)))

/-- One srv1 `<text>` element: optional `start` / `dur` attribute strings
and optional element text.  As with json3, the stdlib XML parser is the
embedding boundary. -/
structure Srv1Elem where
  start : Option String
  dur : Option String
  text : Option String
deriving DecidableEq

/-- `float(elem.get('start', 0))`: an absent attribute is the int 0, a
present one is parsed by `float` and may raise (then: `none`). -/
def float_of_attr : Option String → Option Rat
  | none => some 0
  | some s => pyFloat s

/-- transcript_processor.py lines 207-231, `parse_srv1_transcript`: any
`float()` failure aborts the whole parse (bare except, `return None`);
otherwise elements with non-empty stripped text become cues. -/
def parse_srv1_elems : List Srv1Elem → Option (List Cue)
  | [] => some []
  | e :: rest =>
    match float_of_attr e.start, float_of_attr e.dur with
    | some st, some du =>
      match parse_srv1_elems rest with
      | some cs =>
        let t := pyStrip (e.text.getD "")
        some (if t ≠ "" then { text := t, start := st, duration := du } :: cs else cs)
      | none => none
    | _, _ => none

def parse_srv1_transcript (text_elems : List Srv1Elem) : Option (List Cue) :=
  parse_srv1_elems text_elems

/-
transcript_processor.py: transcript_to_markdown (lines 234-302).
-/

/-- Minimal video metadata used by the renderer (`title`, `id`; the
`.get(…, 'Unknown …')` defaults concern absent dict keys and are outside
the typed model). -/
structure VideoInfo where
  title : String
  id : String
deriving DecidableEq

/-- transcript_processor.py line 273:
`text.endswith(('.', '!', '?', '。', '！', '？'))`. -/
def ends_with_sentence_punct (s : String) : Bool :=
  match s.data.getLast? with
  | some c => c = '.' || c = '!' || c = '?' || c = '。' || c = '！' || c = '？'
  | none => false

/-- The loop state of the paragraph grouping: the accumulator
`current_paragraph`, the anchor `current_start_time`, and the paragraphs
emitted so far as (anchor, final text) pairs.  The source appends each
paragraph's rendered line to the markdown string as it closes; the model
collects the pairs and renders them afterwards, which concatenates to the
same string. -/
structure PState where
  current_paragraph : String
  current_start_time : Option Rat
  paras : List (Option Rat × String)
deriving DecidableEq

/-- transcript_processor.py lines 255-287: the body of
`for entry in transcript`.  The `if not text: continue` check after
cleaning is written unconditionally: for non-Japanese documents the text
equals the already non-empty stripped text, as in the source. -/
def paragraph_step (is_japanese : Bool) (st : PState) (entry : Cue) : PState :=
  let text0 := pyStrip entry.text
  if text0 = "" then st
  else
    let text := if is_japanese then clean_japanese_text text0 else text0
    if text = "" then st
    else
      let anchor := st.current_start_time.getD entry.start
      let acc := st.current_paragraph ++ text ++ " "
      if ends_with_sentence_punct text || acc.length > 500 then
        let f0 := pyStrip acc
        let ft := if is_japanese then clean_japanese_text f0 else f0
        { current_paragraph := "", current_start_time := none,
          paras := st.paras ++ [(some anchor, ft)] }
      else
        { current_paragraph := acc, current_start_time := some anchor,
          paras := st.paras }

/-- transcript_processor.py lines 251-301: the whole grouping, including
the final flush (lines 289-300), as the list of emitted paragraphs. -/
def build_paragraphs (is_japanese : Bool) (transcript : List Cue) :
    List (Option Rat × String) :=
  let st := transcript.foldl (paragraph_step is_japanese)
    { current_paragraph := "", current_start_time := none, paras := [] }
  if pyStrip st.current_paragraph ≠ "" then
    let f0 := pyStrip st.current_paragraph
    let ft := if is_japanese then clean_japanese_text f0 else f0
    if ft ≠ "" then st.paras ++ [(st.current_start_time, ft)] else st.paras
  else st.paras

/-- One paragraph line of the markdown body (lines 274-284 at close, lines
296-300 at flush: the timestamp prefix is used when timestamps are
requested and an anchor exists). -/
def render_paragraph (include_timestamps : Bool) (p : Option Rat × String) : String :=
  match include_timestamps, p.1 with
  | true, some t => "**[" ++ format_timestamp t ++ "]** " ++ p.2 ++ "\n\n"
  | _, _ => p.2 ++ "\n\n"

/-- transcript_processor.py lines 242-245: the document header. -/
def markdown_header (video_info : VideoInfo) : String :=
  "# " ++ video_info.title ++ "\n\n**Video ID:** " ++ video_info.id ++
  "  \n**YouTube URL:** https://www.youtube.com/watch?v=" ++ video_info.id ++
  "\n\n---\n\n"

/-- transcript_processor.py lines 234-302, `transcript_to_markdown`. -/
def transcript_to_markdown (transcript : List Cue) (video_info : VideoInfo)
    (include_timestamps : Bool) : String :=
  let is_japanese := detect_video_language video_info.title "" = "ja"
  let header := markdown_header video_info
  if transcript.isEmpty then
    header ++ "*No transcript available for this video.*\n"
  else
    header ++ String.join ((build_paragraphs is_japanese transcript).map
      (render_paragraph include_timestamps))

/-
url_extract_test.py: extract_video_id (lines 4-46).
-/

/-- url_extract_test.py line 14: `re.match(r'^[a-zA-Z0-9_-]{11}$', url)`.
Python's `$` matches at the end of the string and also just before a single
final `'\n'`, so eleven token characters followed by one trailing newline
are accepted as well. -/
def matches_video_id (s : String) : Bool :=
  (s.data.take 11).length = 11 &&
  (s.data.take 11).all (fun c => c.isAlphanum || c = '-' || c = '_') &&
  (s.data.drop 11 = [] || s.data.drop 11 = ['\n'])

/-- `\w` of the host regex (ASCII part). -/
def word_char (c : Char) : Bool :=
  c.isAlphanum || c = '_'

/-- The tail alternatives after `youtube.co` in the host regex:
`(m|\.uk|\.jp|\.de|.\w{2})` — note the unescaped `.`, matching any
character except a newline. -/
def youtube_co_tail (t : List Char) : Bool :=
  ("m".data).isPrefixOf t || (".uk".data).isPrefixOf t ||
  (".jp".data).isPrefixOf t || (".de".data).isPrefixOf t ||
  (match t with
   | a :: w1 :: w2 :: _ => a ≠ '\n' && word_char w1 && word_char w2
   | _ => false)

/-- `youtube\.co(m|\.uk|\.jp|\.de|.\w{2})` matched at the given position. -/
def youtube_core (t : List Char) : Bool :=
  ("youtube.co".data).isPrefixOf t && youtube_co_tail (t.drop 10)

/-- url_extract_test.py line 26: `re.match` of
`(?:www\.|m\.|music\.)?youtube\.co(m|\.uk|\.jp|\.de|.\w{2})|youtu\.be`
against the hostname — a prefix match (no anchor at the end). -/
def host_regex_match (h : String) : Bool :=
  let d := h.data
  youtube_core d ||
  (("www.".data).isPrefixOf d && youtube_core (d.drop 4)) ||
  (("m.".data).isPrefixOf d && youtube_core (d.drop 2)) ||
  (("music.".data).isPrefixOf d && youtube_core (d.drop 6)) ||
  ("youtu.be".data).isPrefixOf d

/-- The parts of `urllib.parse.urlparse` the resolver reads. -/
structure ParsedUrl where
  hostname : String
  path : String
  query : String
deriving DecidableEq

/-- `urlparse` for an absolute http(s) URL: netloc up to `/`, `?` or `#`;
hostname is the netloc without userinfo and port, lowercased; path up to
`?` or `#`; query after `?` up to `#`. -/
def parse_url (u : String) : ParsedUrl :=
  let xs := u.data
  let body :=
    if ("https://".data).isPrefixOf xs then xs.drop 8
    else if ("http://".data).isPrefixOf xs then xs.drop 7
    else xs
  let netloc := body.takeWhile (fun c => !(c = '/' || c = '?' || c = '#'))
  let rest := body.drop netloc.length
  let hostport := (splitCh '@' netloc).getLastD []
  let host := (splitCh ':' hostport).headD []
  let path := rest.takeWhile (fun c => !(c = '?' || c = '#'))
  let after := rest.drop path.length
  let query :=
    match after with
    | '?' :: qs => qs.takeWhile (fun c => !(c = '#'))
    | _ => []
  { hostname := ⟨host.map Char.toLower⟩, path := ⟨path⟩, query := ⟨query⟩ }

/-- url_extract_test.py lines 31-32:
`parse_qs(query).get('v', [None])[0]` — the first `v=value` field with a
non-empty value (`parse_qs` drops blank values), else no identifier. -/
def query_param_v (q : String) : Option String :=
  ((splitCh '&' q.data).filterMap (fun pair =>
    let k := pair.takeWhile (fun c => !(c = '='))
    match pair.drop k.length with
    | '=' :: v => if k = "v".data && v ≠ [] then some ((⟨v⟩ : String)) else none
    | _ => none)).head?

/-- url_extract_test.py lines 4-46, `extract_video_id`.  The `youtu.be`
branch indexes `path.split('/')[1]` and raises IndexError when the path
has no `/`; that unreachable-in-tests crash is modelled as no identifier. -/
def extract_video_id (url : String) : Option String :=
  if url = "" then none
  else if matches_video_id url then some url
  else
    let u2 :=
      if ("http://".data).isPrefixOf url.data || ("https://".data).isPrefixOf url.data
      then url else "http://" ++ url
    let p := parse_url u2
    if p.hostname = "" || !host_regex_match p.hostname then none
    else if p.path = "/watch" then query_param_v p.query
    else if p.hostname = "youtu.be" then
      match splitCh '/' p.path.data with
      | _ :: seg :: _ => some ((⟨seg.takeWhile (fun c => !(c = '?'))⟩ : String))
      | _ => none
    else
      match splitCh '/' p.path.data with
      | _ :: p1 :: p2 :: _ =>
        if p1 = "embed".data || p1 = "shorts".data || p1 = "live".data || p1 = "v".data
        then some ((⟨p2.takeWhile (fun c => !(c = '?'))⟩ : String))
        else none
      | _ => none

/-
Helper lemmas.
-/

theorem trimRight_cons (c : Char) (rest : List Char) :
    trimRight (c :: rest) =
      match trimRight rest with
      | [] => if pyWs c then [] else [c]
      | d :: ds => c :: d :: ds := rfl

theorem splitCh_ne_nil (sep : Char) (xs : List Char) : splitCh sep xs ≠ [] := by
  cases xs with
  | nil => simp [splitCh]
  | cons c rest =>
    simp only [splitCh]
    cases splitCh sep rest with
    | nil => simp
    | cons h t =>
      by_cases hc : c = sep <;> simp [hc]

theorem splitCh_of_not_mem {sep : Char} {xs : List Char} (h : sep ∉ xs) :
    splitCh sep xs = [xs] := by
  induction xs with
  | nil => rfl
  | cons c rest ih =>
    have hc : c ≠ sep := fun hcc => h (hcc ▸ List.mem_cons_self c rest)
    have hrest : sep ∉ rest := fun hm => h (List.mem_cons_of_mem c hm)
    simp only [splitCh, ih hrest]
    simp [hc]

theorem splitCh_append {sep : Char} {a : List Char} (b : List Char) (h : sep ∉ a) :
    splitCh sep (a ++ sep :: b) = a :: splitCh sep b := by
  induction a with
  | nil =>
    simp only [List.nil_append, splitCh]
    cases hb : splitCh sep b with
    | nil => exact absurd hb (splitCh_ne_nil sep b)
    | cons h t => simp
  | cons c rest ih =>
    have hc : c ≠ sep := fun hcc => h (hcc ▸ List.mem_cons_self c rest)
    have hrest : sep ∉ rest := fun hm => h (List.mem_cons_of_mem c hm)
    rw [List.cons_append]
    simp only [splitCh]
    rw [ih hrest]
    simp [hc]

theorem mem_of_mem_splitCh {sep : Char} {xs p : List Char} {c : Char}
    (hp : p ∈ splitCh sep xs) (hc : c ∈ p) : c ∈ xs := by
  induction xs generalizing p with
  | nil =>
    simp [splitCh] at hp
    subst hp
    exact absurd hc (List.not_mem_nil c)
  | cons x rest ih =>
    simp only [splitCh] at hp
    cases hsp : splitCh sep rest with
    | nil => exact absurd hsp (splitCh_ne_nil sep rest)
    | cons h t =>
      rw [hsp] at hp
      by_cases hx : x = sep
      · simp only [hx, if_pos rfl] at hp
        rcases List.mem_cons.mp hp with h1 | h2
        · subst h1
          exact absurd hc (List.not_mem_nil c)
        · exact List.mem_cons_of_mem x (ih (hsp ▸ h2) hc)
      · simp only [if_neg hx] at hp
        rcases List.mem_cons.mp hp with h1 | h2
        · subst h1
          rcases List.mem_cons.mp hc with h3 | h4
          · exact h3 ▸ List.mem_cons_self x rest
          · exact List.mem_cons_of_mem x (ih (hsp ▸ List.mem_cons_self h t) h4)
        · exact List.mem_cons_of_mem x (ih (hsp ▸ List.mem_cons_of_mem h h2) hc)

theorem mem_of_mem_dropWhile {p : Char → Bool} {xs : List Char} {c : Char}
    (h : c ∈ xs.dropWhile p) : c ∈ xs := by
  induction xs with
  | nil => simpa using h
  | cons x rest ih =>
    rw [List.dropWhile_cons] at h
    by_cases hx : p x
    · simp only [hx, if_pos] at h
      exact List.mem_cons_of_mem x (ih h)
    · simp only [hx] at h
      simpa using h

theorem trimRight_subset {xs : List Char} {c : Char} (h : c ∈ trimRight xs) : c ∈ xs := by
  induction xs with
  | nil => simpa [trimRight] using h
  | cons x rest ih =>
    rw [trimRight_cons] at h
    cases ht : trimRight rest with
    | nil =>
      rw [ht] at h
      by_cases hw : pyWs x
      · simp [hw] at h
      · simp [hw] at h
        exact h ▸ List.mem_cons_self x rest
    | cons d ds =>
      rw [ht] at h
      rcases List.mem_cons.mp h with h1 | h2
      · exact h1 ▸ List.mem_cons_self x rest
      · exact List.mem_cons_of_mem x (ih (ht ▸ h2))

theorem pyStripL_subset {xs : List Char} {c : Char} (h : c ∈ pyStripL xs) : c ∈ xs := by
  exact mem_of_mem_dropWhile (trimRight_subset h)

theorem trimRight_of_no_ws {xs : List Char} (h : ∀ c ∈ xs, pyWs c = false) :
    trimRight xs = xs := by
  induction xs with
  | nil => rfl
  | cons x rest ih =>
    have hx : pyWs x = false := h x (List.mem_cons_self x rest)
    have hr : trimRight rest = rest := ih (fun c hc => h c (List.mem_cons_of_mem x hc))
    rw [trimRight_cons, hr]
    cases rest with
    | nil => simp [hx]
    | cons d ds => rfl

theorem pyStripL_of_no_ws {xs : List Char} (h : ∀ c ∈ xs, pyWs c = false) :
    pyStripL xs = xs := by
  have hd : xs.dropWhile pyWs = xs := by
    cases xs with
    | nil => rfl
    | cons x rest => simp [List.dropWhile_cons, h x (List.mem_cons_self x rest)]
  rw [pyStripL, hd, trimRight_of_no_ws h]

theorem trimRight_idem (xs : List Char) : trimRight (trimRight xs) = trimRight xs := by
  induction xs with
  | nil => rfl
  | cons x rest ih =>
    cases ht : trimRight rest with
    | nil =>
      by_cases hw : pyWs x
      · have h1 : trimRight (x :: rest) = [] := by rw [trimRight_cons, ht]; simp [hw]
        rw [h1]
        rfl
      · have h1 : trimRight (x :: rest) = [x] := by rw [trimRight_cons, ht]; simp [hw]
        rw [h1, trimRight_cons]
        simp [trimRight, hw]
    | cons d ds =>
      have h2 : trimRight (d :: ds) = d :: ds := by rw [← ht, ih, ht]
      have h1 : trimRight (x :: rest) = x :: d :: ds := by rw [trimRight_cons, ht]
      rw [h1, trimRight_cons, h2]

theorem pyStripL_idem (xs : List Char) : pyStripL (pyStripL xs) = pyStripL xs := by
  rw [pyStripL, pyStripL]
  have hA : xs.dropWhile pyWs = [] ∨
      ∃ c t, xs.dropWhile pyWs = c :: t ∧ pyWs c = false := by
    induction xs with
    | nil => exact Or.inl rfl
    | cons x rest ih =>
      by_cases hw : pyWs x
      · simpa [List.dropWhile_cons, hw] using ih
      · exact Or.inr ⟨x, rest, by simp [List.dropWhile_cons, hw], by simpa using hw⟩
  rcases hA with hA | ⟨c, t, hA, hc⟩
  · rw [hA]
    rfl
  · rw [hA]
    have hhead : trimRight (c :: t) = [] ∨ ∃ u, trimRight (c :: t) = c :: u := by
      rw [trimRight_cons]
      cases trimRight t with
      | nil =>
        by_cases hw : pyWs c
        · exact Or.inl (by simp [hw])
        · exact Or.inr ⟨[], by simp [hw]⟩
      | cons d ds => exact Or.inr ⟨d :: ds, rfl⟩
    rcases hhead with hh | ⟨u, hh⟩
    · rw [hh]
      rfl
    · rw [hh, List.dropWhile_cons, hc]
      simp only [Bool.false_eq_true, if_false]
      rw [← hh, trimRight_idem]

theorem pyStrip_idem (s : String) : pyStrip (pyStrip s) = pyStrip s := by
  simp only [pyStrip, pyStripL_idem]

/-- `ratDivNat` is the rational division it stands for. -/
theorem ratDivNat_eq_div (q : Rat) (n : Nat) : ratDivNat q n = q / n := by
  rw [ratDivNat, Rat.mkRat_eq_div]
  push_cast
  rw [div_mul_eq_div_div_swap]
  conv_rhs => rw [← Rat.num_div_den q]
  rw [div_right_comm]

theorem pyWs_true_cases {c : Char} (h : pyWs c = true) :
    c = ' ' ∨ c = '\t' ∨ c = '\n' ∨ c = '\x0b' ∨ c = '\x0c' ∨ c = '\r' := by
  have h2 := h
  simp only [pyWs, Bool.or_eq_true, decide_eq_true_eq] at h2
  tauto

theorem not_ws_of_digit {c : Char} (h : c.isDigit = true) : pyWs c = false := by
  cases hw : pyWs c
  · rfl
  · rcases pyWs_true_cases hw with rfl | rfl | rfl | rfl | rfl | rfl <;>
      exact absurd h (by decide)

theorem digit_ne_of {c : Char} (h : c.isDigit = true) (d : Char)
    (hd : d.isDigit = false) : c ≠ d := by
  intro he
  rw [he, hd] at h
  exact Bool.false_ne_true h

theorem pyInt_digits {xs : List Char} (hne : xs ≠ [])
    (hd : ∀ c ∈ xs, c.isDigit = true) : pyInt xs = some ((natVal xs : Int)) := by
  have hs : pyStripL xs = xs :=
    pyStripL_of_no_ws (fun c hc => not_ws_of_digit (hd c hc))
  cases xs with
  | nil => exact absurd rfl hne
  | cons c ds =>
    have hc := hd c (List.mem_cons_self c ds)
    have h1 : c ≠ '-' := digit_ne_of hc '-' (by decide)
    have h2 : c ≠ '+' := digit_ne_of hc '+' (by decide)
    have h3 : (c :: ds).all Char.isDigit = true := by
      rw [List.all_eq_true]
      intro x hx
      exact hd x hx
    simp only [pyInt, hs, if_neg h1, if_neg h2, h3, if_pos]

theorem pyInt_no_digit {xs : List Char} (hd : ∀ c ∈ xs, c.isDigit = false) :
    pyInt xs = none := by
  have hsub : ∀ c ∈ pyStripL xs, c.isDigit = false :=
    fun c hc => hd c (pyStripL_subset hc)
  cases hps : pyStripL xs with
  | nil => simp only [pyInt, hps]
  | cons c ds =>
    have hds : ds ≠ [] → ds.all Char.isDigit = false := by
      intro hne
      cases ds with
      | nil => exact absurd rfl hne
      | cons d ds' =>
        have : d.isDigit = false :=
          hsub d (hps ▸ List.mem_cons_of_mem c (List.mem_cons_self d ds'))
        simp [List.all_cons, this]
    have hcd : c.isDigit = false := hsub c (hps ▸ List.mem_cons_self c ds)
    simp only [pyInt, hps]
    by_cases h1 : c = '-'
    · simp only [if_pos h1]
      cases ds with
      | nil => simp
      | cons d ds' => simp [hds (by simp)]
    · by_cases h2 : c = '+'
      · simp only [if_neg h1, if_pos h2]
        cases ds with
        | nil => simp
        | cons d ds' => simp [hds (by simp)]
      · simp [if_neg h1, if_neg h2, List.all_cons, hcd]

/-
Claim C10.
-/

/-- C10 counterexample: the claim says an input that is not a well-formed
H:MM:SS, MM:SS or bare-seconds timestamp yields 0 (and a well-formed leading
component its total), but "1:2:3:4" yields 1 — `int()` of the first colon
part, which is neither 0 nor the leading H:MM:SS total 3723. -/
theorem C10_counterexample :
    vtt_time_to_seconds "1:2:3:4" = 1 ∧ vtt_time_to_seconds "1:2:3:4" ≠ 0 ∧
      vtt_time_to_seconds "1:2:3:4" ≠ 3723 := by
  decide

theorem not_mem_of_all_digit {xs : List Char}
    (hd : ∀ x ∈ xs, x.isDigit = true) (d : Char) (hnd : d.isDigit = false) : d ∉ xs := by
  intro hm
  rw [hd d hm] at hnd
  exact absurd hnd (by decide)

theorem not_mem_append_cons {d sep : Char} {a rest : List Char}
    (h1 : d ∉ a) (h2 : d ≠ sep) (h3 : d ∉ rest) : d ∉ a ++ sep :: rest := by
  intro hm
  rcases List.mem_append.mp hm with h | h
  · exact h1 h
  · rcases List.mem_cons.mp h with h | h
    · exact h2 h
    · exact h3 h

/-- C10: vtt_time_to_seconds is total; everything from the first '.' on is
discarded and the remainder is split on ':'.  Three components that each
parse as a Python `int` (optional surrounding whitespace and a sign) yield
h*3600 + m*60 + s and two yield m*60 + s; if any of the two or three
components fails to parse as an `int`, the bare `except` yields 0.  A
single component yields its `int` value, or 0 when it does not parse; and
four or more components yield the `int` value of the first component alone
(0 when that fails) — not 0 in general. -/
theorem C10_time_parse_amended :
    (∀ a b c : List Char, ∀ x y z : Int,
      ':' ∉ a → ':' ∉ b → ':' ∉ c → '.' ∉ a → '.' ∉ b → '.' ∉ c →
      pyInt a = some x → pyInt b = some y → pyInt c = some z →
      vtt_time_to_seconds ⟨a ++ ':' :: (b ++ ':' :: c)⟩ = x * 3600 + y * 60 + z) ∧
    (∀ a b : List Char, ∀ x y : Int,
      ':' ∉ a → ':' ∉ b → '.' ∉ a → '.' ∉ b →
      pyInt a = some x → pyInt b = some y →
      vtt_time_to_seconds ⟨a ++ ':' :: b⟩ = x * 60 + y) ∧
    (∀ a : List Char, ':' ∉ a → '.' ∉ a →
      vtt_time_to_seconds ⟨a⟩ = (pyInt a).getD 0) ∧
    (∀ xs rest : List Char, '.' ∉ xs →
      vtt_time_to_seconds ⟨xs ++ '.' :: rest⟩ = vtt_time_to_seconds ⟨xs⟩) ∧
    (∀ a b c : List Char,
      ':' ∉ a → ':' ∉ b → ':' ∉ c → '.' ∉ a → '.' ∉ b → '.' ∉ c →
      (pyInt a = none ∨ pyInt b = none ∨ pyInt c = none) →
      vtt_time_to_seconds ⟨a ++ ':' :: (b ++ ':' :: c)⟩ = 0) ∧
    (∀ a b : List Char, ':' ∉ a → ':' ∉ b → '.' ∉ a → '.' ∉ b →
      (pyInt a = none ∨ pyInt b = none) →
      vtt_time_to_seconds ⟨a ++ ':' :: b⟩ = 0) ∧
    (∀ a b c d : List Char,
      ':' ∉ a → ':' ∉ b → ':' ∉ c → '.' ∉ a → '.' ∉ b → '.' ∉ c → '.' ∉ d →
      vtt_time_to_seconds ⟨a ++ ':' :: (b ++ ':' :: (c ++ ':' :: d))⟩ =
        (pyInt a).getD 0) := by
  refine ⟨?_, ?_, ?_, ?_, ?_, ?_, ?_⟩
  · intro a b c x y z hca hcb hcc hda hdb hdc hx hy hz
    have hdot : ('.' : Char) ∉ a ++ ':' :: (b ++ ':' :: c) :=
      not_mem_append_cons hda (by decide) (not_mem_append_cons hdb (by decide) hdc)
    have hparts : splitCh ':' (a ++ ':' :: (b ++ ':' :: c)) = [a, b, c] := by
      rw [splitCh_append _ hca, splitCh_append _ hcb, splitCh_of_not_mem hcc]
    simp only [vtt_time_to_seconds,
      show (String.mk (a ++ ':' :: (b ++ ':' :: c))).data = a ++ ':' :: (b ++ ':' :: c)
        from rfl,
      splitCh_of_not_mem hdot, List.headD, hparts, hx, hy, hz]
  · intro a b x y hca hcb hda hdb hx hy
    have hdot : ('.' : Char) ∉ a ++ ':' :: b :=
      not_mem_append_cons hda (by decide) hdb
    have hparts : splitCh ':' (a ++ ':' :: b) = [a, b] := by
      rw [splitCh_append _ hca, splitCh_of_not_mem hcb]
    simp only [vtt_time_to_seconds,
      show (String.mk (a ++ ':' :: b)).data = a ++ ':' :: b from rfl,
      splitCh_of_not_mem hdot, List.headD, hparts, hx, hy]
  · intro a hca hda
    simp only [vtt_time_to_seconds, show (String.mk a).data = a from rfl,
      splitCh_of_not_mem hda, List.headD, splitCh_of_not_mem hca]
    cases h : pyInt a <;> simp [h]
  · intro xs rest hdot
    simp only [vtt_time_to_seconds,
      show (String.mk (xs ++ '.' :: rest)).data = xs ++ '.' :: rest from rfl,
      show (String.mk xs).data = xs from rfl,
      splitCh_append rest hdot, splitCh_of_not_mem hdot, List.headD]
  · intro a b c hca hcb hcc hda hdb hdc hor
    have hdot : ('.' : Char) ∉ a ++ ':' :: (b ++ ':' :: c) :=
      not_mem_append_cons hda (by decide) (not_mem_append_cons hdb (by decide) hdc)
    have hparts : splitCh ':' (a ++ ':' :: (b ++ ':' :: c)) = [a, b, c] := by
      rw [splitCh_append _ hca, splitCh_append _ hcb, splitCh_of_not_mem hcc]
    simp only [vtt_time_to_seconds,
      show (String.mk (a ++ ':' :: (b ++ ':' :: c))).data = a ++ ':' :: (b ++ ':' :: c)
        from rfl,
      splitCh_of_not_mem hdot, List.headD, hparts]
    rcases hor with hn | hn | hn
    · simp [hn]
    · cases h : pyInt a <;> simp [h, hn]
    · cases h : pyInt a <;> cases h2 : pyInt b <;> simp [h, h2, hn]
  · intro a b hca hcb hda hdb hor
    have hdot : ('.' : Char) ∉ a ++ ':' :: b :=
      not_mem_append_cons hda (by decide) hdb
    have hparts : splitCh ':' (a ++ ':' :: b) = [a, b] := by
      rw [splitCh_append _ hca, splitCh_of_not_mem hcb]
    simp only [vtt_time_to_seconds,
      show (String.mk (a ++ ':' :: b)).data = a ++ ':' :: b from rfl,
      splitCh_of_not_mem hdot, List.headD, hparts]
    rcases hor with hn | hn
    · simp [hn]
    · cases h : pyInt a <;> simp [h, hn]
  · intro a b c d hca hcb hcc hda hdb hdc hdd
    have hdot : ('.' : Char) ∉ a ++ ':' :: (b ++ ':' :: (c ++ ':' :: d)) :=
      not_mem_append_cons hda (by decide) (not_mem_append_cons hdb (by decide)
        (not_mem_append_cons hdc (by decide) hdd))
    have hparts : splitCh ':' (a ++ ':' :: (b ++ ':' :: (c ++ ':' :: d))) =
        a :: b :: c :: splitCh ':' d := by
      rw [splitCh_append _ hca, splitCh_append _ hcb, splitCh_append _ hcc]
    simp only [vtt_time_to_seconds,
      show (String.mk (a ++ ':' :: (b ++ ':' :: (c ++ ':' :: d)))).data =
        a ++ ':' :: (b ++ ':' :: (c ++ ':' :: d)) from rfl,
      splitCh_of_not_mem hdot, List.headD, hparts]
    cases hd4 : splitCh ':' d with
    | nil => exact absurd hd4 (splitCh_ne_nil ':' d)
    | cons e t => cases h : pyInt a <;> simp [h]

/-- C10 witness: the amended theorem applied at concrete inputs covering
each branch, including signed and whitespace-padded components and mixed
malformed shapes. -/
theorem C10_time_parse_amended_witness :
    vtt_time_to_seconds " -1:02: 3 " = -3477 ∧ vtt_time_to_seconds "-1:30" = -30 ∧
      vtt_time_to_seconds "45" = 45 ∧ vtt_time_to_seconds "not a time" = 0 ∧
      vtt_time_to_seconds "1:02:03.945" = 3723 ∧ vtt_time_to_seconds "1:xx:3" = 0 ∧
      vtt_time_to_seconds "12:xx" = 0 ∧ vtt_time_to_seconds "9:8:7:6" = 9 := by
  refine ⟨?_, ?_, ?_, ?_, ?_, ?_, ?_, ?_⟩
  · have h := C10_time_parse_amended.1 (" -1".data) ("02".data) (" 3 ".data)
      (-1) 2 3 (by decide) (by decide) (by decide) (by decide) (by decide)
      (by decide) (by decide) (by decide) (by decide)
    exact h.trans (by decide)
  · have h := C10_time_parse_amended.2.1 ("-1".data) ("30".data) (-1) 30
      (by decide) (by decide) (by decide) (by decide) (by decide) (by decide)
    exact h.trans (by decide)
  · have h := C10_time_parse_amended.2.2.1 ("45".data) (by decide) (by decide)
    exact h.trans (by decide)
  · have h := C10_time_parse_amended.2.2.1 ("not a time".data) (by decide) (by decide)
    exact h.trans (by decide)
  · have h := C10_time_parse_amended.2.2.2.1 ("1:02:03".data) ("945".data) (by decide)
    exact h.trans (by decide)
  · have h := C10_time_parse_amended.2.2.2.2.1 ("1".data) ("xx".data) ("3".data)
      (by decide) (by decide) (by decide) (by decide) (by decide) (by decide)
      (Or.inr (Or.inl (by decide)))
    exact h
  · have h := C10_time_parse_amended.2.2.2.2.2.1 ("12".data) ("xx".data)
      (by decide) (by decide) (by decide) (by decide) (Or.inr (by decide))
    exact h
  · have h := C10_time_parse_amended.2.2.2.2.2.2 ("9".data) ("8".data) ("7".data)
      ("6".data) (by decide) (by decide) (by decide) (by decide) (by decide)
      (by decide) (by decide)
    exact h.trans (by decide)

/-
Claim C3.
-/

/-- C3: the picker evaluated at the failing input.  With the list
[srv1, vtt] the loop keeps the srv1 item (the `elif ext == 'vtt' and not
best_format` guard sees the slot already filled), so the cue-text format is
NOT chosen over timed-XML when it comes later in the list — the preference
only holds in the other order. -/
theorem C3_format_pick_at_failing_input :
    find_best_format [{ ext := "srv1", url := "u1" }, { ext := "vtt", url := "u2" }] =
      some { ext := "srv1", url := "u1" } ∧
    find_best_format [{ ext := "vtt", url := "u2" }, { ext := "srv1", url := "u1" }] =
      some { ext := "vtt", url := "u2" } := by
  decide

/-
Claim C4.
-/

/-- C4 counterexample: a cue-text payload whose timestamp "bad" is not
parseable does not make the decoder fail with "no cues"; it yields a cue
whose start silently defaulted to 0. -/
theorem C4_counterexample :
    parse_vtt_transcript "bad --> x\nhello" =
      [{ text := "hello", start := 0, duration := 0 }] ∧
    parse_vtt_transcript "bad --> x\nhello" ≠ [] := by
  decide

/-- C4 amended: a numerically malformed timestamp does not abort the vtt
decode; `vtt_time_to_seconds` swallows the failure into 0, so the payload
with the unparseable timestamp decodes to exactly the same cue list as a
payload whose timestamp genuinely is zero — the two are indistinguishable
downstream. -/
theorem C4_malformed_timestamp_amended :
    parse_vtt_transcript "bad --> x\nhello" =
      parse_vtt_transcript "00:00:00.000 --> 00:00:03.000\nhello" ∧
    parse_vtt_transcript "00:00:00.000 --> 00:00:03.000\nhello" =
      [{ text := "hello", start := 0, duration := 0 }] := by
  decide

/-
Claim C5.
-/

/-- C5: the resolver evaluated at the failing input.  The host regex is
matched with `re.match` and has no end anchor, so the hostname
youtube.com.evil.example — a different registered domain that merely begins
with the platform domain — passes the host check and the resolver returns
an identifier, where the claim (and the regex's own comment) require none. -/
theorem C5_prefix_host_at_failing_input :
    extract_video_id "https://youtube.com.evil.example/watch?v=dQw4w9WgXcQ" =
      some "dQw4w9WgXcQ" ∧
    host_regex_match "youtube.com.evil.example" = true ∧
    extract_video_id "https://www.google.com" = none := by
  decide

/-
Claim C6.
-/

/-- C6 counterexample: the live URL of the source's own test list resolves
to "some_live_id", a 12-character identifier — not an 11-character token. -/
theorem C6_counterexample :
    extract_video_id "https://www.youtube.com/live/some_live_id?feature=share" =
      some "some_live_id" ∧
    ("some_live_id" : String).length = 12 := by
  decide

/-- C6 amended: an input accepted by the bare-token pattern is returned
verbatim, but that pattern is not limited to 11-character results: Python's
`$` also matches before a single trailing newline, so an 11-character token
followed by `'\n'` comes back verbatim as a 12-character identifier
containing a newline; identifiers extracted from URL paths or query strings
are likewise returned without length or alphabet validation (the live URL
yields a 12-character result); inputs from which no token can be derived
yield `none` rather than a default. -/
theorem C6_identifier_amended :
    (∀ s : String, matches_video_id s = true → extract_video_id s = some s) ∧
    extract_video_id "dQw4w9WgXcQ\n" = some "dQw4w9WgXcQ\n" ∧
    ("dQw4w9WgXcQ\n" : String).length = 12 ∧
    extract_video_id "https://www.youtube.com/live/some_live_id?feature=share" =
      some "some_live_id" ∧
    extract_video_id "not a url" = none ∧
    extract_video_id "https://www.google.com" = none := by
  refine ⟨?_, by decide, by decide, by decide, by decide, by decide⟩
  intro s h
  have hne : s ≠ "" := by
    intro he
    rw [he] at h
    exact absurd h (by decide)
  unfold extract_video_id
  rw [if_neg hne, if_pos h]

/-- C6 witness: the amended theorem's verbatim branch at a concrete token. -/
theorem C6_identifier_amended_witness :
    extract_video_id "dQw4w9WgXcQ" = some "dQw4w9WgXcQ" :=
  C6_identifier_amended.1 "dQw4w9WgXcQ" (by decide)

/-
Claim C1.
-/

/-- C1 counterexample: the claim quantifies over every track value X, but
for the empty track list X = [] the selected data is falsy
(`if not transcript_data`), the fallback re-selects the same empty list and
the final truthiness check turns the result into "no transcripts found" —
not X with provenance automatic/"ja". -/
theorem C1_counterexample :
    get_transcript_selection "ja" [] [("ja", []), ("en", [{ ext := "vtt", url := "u" }])] =
      none ∧
    ¬ (get_transcript_selection "ja" [] [("ja", []), ("en", [{ ext := "vtt", url := "u" }])] =
      some (([] : List FormatItem), "Auto-generated (ja)")) := by
  decide

/-- C1 amended: for every non-empty track value X the concrete instance
holds — detected "ja", manual empty, automatic {"ja": X, "en": Y} selects
X with provenance automatic/"ja" — and in general, whenever the priority
walk finds a language with a non-empty track list among the manual tracks,
the selector returns that manual track and never consults the automatic
ones. -/
theorem C1_selection_amended :
    (∀ X Y : List FormatItem, X ≠ [] →
      get_transcript_selection "ja" [] [("ja", X), ("en", Y)] =
        some (X, "Auto-generated (ja)")) ∧
    (∀ (detected : String) (subs autos : List (String × List FormatItem))
        (l : String) (d : List FormatItem),
      walkPref (preferred_languages detected) subs = some (l, d) → d ≠ [] →
      get_transcript_selection detected subs autos = some (d, "Manual (" ++ l ++ ")")) := by
  constructor
  · intro X Y hX
    cases X with
    | nil => exact absurd rfl hX
    | cons x xs => rfl
  · intro detected subs autos l d hw hd
    simp only [get_transcript_selection, hw]
    cases d with
    | nil => exact absurd rfl hd
    | cons f fs => simp [track_truthy]

/-- C1 witness: the amended theorem at concrete inputs — an automatic
"ja" selection with a non-empty track list, and a manual "en" selection. -/
theorem C1_selection_amended_witness :
    get_transcript_selection "ja" [] [("ja", [{ ext := "json3", url := "u" }]), ("en", [])] =
      some ([{ ext := "json3", url := "u" }], "Auto-generated (ja)") ∧
    get_transcript_selection "en" [("en", [{ ext := "vtt", url := "m" }])] [] =
      some ([{ ext := "vtt", url := "m" }], "Manual (en)") := by
  constructor
  · exact C1_selection_amended.1 [{ ext := "json3", url := "u" }] [] (by decide)
  · exact C1_selection_amended.2 "en" [("en", [{ ext := "vtt", url := "m" }])] [] "en"
      [{ ext := "vtt", url := "m" }] (by decide) (by decide)

/-
Claim C2.
-/

/-- C2: a surviving cue closes the current paragraph exactly when its
cleaned text ends in one of the six sentence-terminal marks or the
accumulator (with the appended text and separating space) exceeds 500
characters; and the concrete three-cue sequence "Hello " / "world. " /
"Next sentence." yields exactly the paragraphs "Hello world." (anchor 0)
and "Next sentence." (anchor 2). -/
theorem C2_paragraph_rule :
    (∀ (is_japanese : Bool) (st : PState) (e : Cue) (t0 t : String),
      pyStrip e.text = t0 → t0 ≠ "" →
      (if is_japanese then clean_japanese_text t0 else t0) = t → t ≠ "" →
      ((paragraph_step is_japanese st e).paras ≠ st.paras ↔
        (ends_with_sentence_punct t = true ∨
          (st.current_paragraph ++ t ++ " ").length > 500))) ∧
    build_paragraphs false
      [{ text := "Hello ", start := 0, duration := 0 },
       { text := "world. ", start := 1, duration := 0 },
       { text := "Next sentence.", start := 2, duration := 0 }] =
      [(some 0, "Hello world."), (some 2, "Next sentence.")] := by
  constructor
  · intro isJa st e t0 t h0 h0ne ht htne
    unfold paragraph_step
    rw [h0, if_neg h0ne, ht, if_neg htne]
    by_cases hcl : (ends_with_sentence_punct t ||
        decide ((st.current_paragraph ++ t ++ " ").length > 500)) = true
    · rw [if_pos hcl]
      simp only [Bool.or_eq_true, decide_eq_true_eq] at hcl
      constructor
      · intro _
        exact hcl
      · intro _
        intro hh
        have h2 := congrArg List.length hh
        simp at h2
    · rw [if_neg hcl]
      simp only [Bool.or_eq_true, decide_eq_true_eq] at hcl
      constructor
      · intro hh
        exact absurd rfl hh
      · intro hor
        exact absurd hor hcl
  · decide

/-- C2 witness: the closing rule applied to a concrete step — the single
cue "Hi." closes the paragraph it starts. -/
theorem C2_paragraph_rule_witness :
    ((paragraph_step false { current_paragraph := "", current_start_time := none, paras := [] }
        { text := "Hi.", start := 0, duration := 0 }).paras ≠
      ({ current_paragraph := "", current_start_time := none,
          paras := [] } : PState).paras) ↔
      (ends_with_sentence_punct "Hi." = true ∨ ("" ++ "Hi." ++ " ").length > 500) :=
  C2_paragraph_rule.1 false
    { current_paragraph := "", current_start_time := none, paras := [] }
    { text := "Hi.", start := 0, duration := 0 } "Hi." "Hi."
    (by decide) (by decide) (by decide) (by decide)

/-
Claim C9.
-/

/-- C9 counterexample: a non-empty cue list whose only cue cleans to the
empty string yields zero paragraphs, and the rendered document does NOT
contain the "no transcript available" marker — the marker is only emitted
when the cue list itself is empty. -/
theorem C9_counterexample :
    build_paragraphs true [{ text := "[音楽]", start := 0, duration := 0 }] = [] ∧
    containsSub ("*No transcript available for this video.*".data)
      (transcript_to_markdown [{ text := "[音楽]", start := 0, duration := 0 }]
        { title := "です", id := "abc" } true).data = false := by
  decide

/-- C9 amended: the explicit marker line is produced exactly by the
empty-input branch — for an empty cue list the document is the header plus
the marker, for every metadata record and timestamp flag; when cues exist
but all of them clean to empty, the body is empty and carries no marker
(see the counterexample); and the in-loop close can even emit a paragraph
whose text is empty after the final cleanup, when the 500-character
threshold fires on accumulated text that cleanup then erases. -/
theorem C9_empty_marker_amended :
    (∀ (info : VideoInfo) (b : Bool),
      transcript_to_markdown [] info b =
        markdown_header info ++ "*No transcript available for this video.*\n") ∧
    build_paragraphs true
      [{ text := String.join (List.replicate 126 "[音 楽]"), start := 0, duration := 0 }] =
      [(some 0, "")] ∧
    transcript_to_markdown
      [{ text := String.join (List.replicate 126 "[音 楽]"), start := 0, duration := 0 }]
      { title := "です", id := "abc" } true =
      markdown_header { title := "です", id := "abc" } ++ "**[0:00:00]** \n\n" := by
  refine ⟨?_, ?_, ?_⟩
  · intro info b
    rfl
  · set_option maxRecDepth 100000 in decide
  · set_option maxRecDepth 100000 in decide

/-
Claim C7.
-/

/-- C7 counterexample: a cue-text payload with a negative timestamp
component and text lines that are pure markup tags yields a cue whose text
is whitespace only (empty after trimming) and whose start is negative. -/
theorem C7_counterexample :
    parse_vtt_transcript "0:0:-5 --> x\n<b>\n<i>" =
      [{ text := " ", start := -5, duration := 0 }] ∧
    pyStrip " " = "" ∧ ((-5 : Rat) < 0) := by
  decide

theorem json3_text_facts (evs : List Json3Event) :
    ∀ c ∈ parse_json3_events evs, pyStrip c.text = c.text ∧ c.text ≠ "" := by
  induction evs with
  | nil =>
    intro c hc
    simp [parse_json3_events] at hc
  | cons e rest ih =>
    intro c hc
    cases hs : e.segs with
    | none =>
      simp only [parse_json3_events, hs] at hc
      exact ih c hc
    | some segs =>
      simp only [parse_json3_events, hs] at hc
      by_cases hne : pyStrip (String.join (segs.filterMap (fun s => s.utf8))) ≠ ""
      · rw [if_pos hne] at hc
        rcases List.mem_cons.mp hc with h1 | h2
        · subst h1
          exact ⟨pyStrip_idem _, hne⟩
        · exact ih c h2
      · rw [if_neg hne] at hc
        exact ih c hc

theorem srv1_text_facts (es : List Srv1Elem) :
    ∀ cs : List Cue, parse_srv1_elems es = some cs →
      ∀ c ∈ cs, pyStrip c.text = c.text ∧ c.text ≠ "" := by
  induction es with
  | nil =>
    intro cs hcs c hc
    simp only [parse_srv1_elems, Option.some.injEq] at hcs
    subst hcs
    simp at hc
  | cons e rest ih =>
    intro cs hcs c hc
    simp only [parse_srv1_elems] at hcs
    cases h1 : float_of_attr e.start with
    | none => rw [h1] at hcs; simp at hcs
    | some st =>
      cases h2 : float_of_attr e.dur with
      | none => rw [h1, h2] at hcs; simp at hcs
      | some du =>
        rw [h1, h2] at hcs
        simp only at hcs
        cases h3 : parse_srv1_elems rest with
        | none => rw [h3] at hcs; simp at hcs
        | some cs' =>
          rw [h3] at hcs
          simp only [Option.some.injEq] at hcs
          subst hcs
          by_cases ht : pyStrip (e.text.getD "") ≠ ""
          · rw [if_pos ht] at hc
            rcases List.mem_cons.mp hc with hh | hh
            · subst hh
              exact ⟨pyStrip_idem _, ht⟩
            · exact ih cs' h3 c hh
          · rw [if_neg ht] at hc
            exact ih cs' h3 c hc

theorem vtt_text_facts (fuel : Nat) :
    ∀ (lines : List String) (c : Cue), c ∈ vttLoopGo fuel lines → c.text ≠ "" := by
  induction fuel with
  | zero =>
    intro lines c hc
    cases lines <;> simp [vttLoopGo] at hc
  | succ n ih =>
    intro lines c hc
    cases lines with
    | nil => simp [vttLoopGo] at hc
    | cons line rest =>
      simp only [vttLoopGo] at hc
      by_cases hct : containsSub ("-->".data) (pyStrip line).data = true
      · rw [if_pos hct] at hc
        rcases List.mem_append.mp hc with h | h
        · by_cases htx :
            (⟨stripVttTags (String.intercalate " "
              ((rest.takeWhile (fun s => pyStrip s ≠ "")).map pyStrip)).data⟩ : String) ≠ ""
          · rw [if_pos htx] at h
            rcases List.mem_cons.mp h with hh | hh
            · subst hh
              exact htx
            · exact absurd hh (List.not_mem_nil c)
          · rw [if_neg htx] at h
            exact absurd h (List.not_mem_nil c)
        · exact ih _ c h
      · rw [if_neg hct] at hc
        exact ih _ c hc

/-- C7 amended: every cue decoded from a (typed) json3 payload and every
cue of a successful srv1 parse has text that is unchanged by trimming and
non-empty (both decoders strip the text before the emptiness test); every
vtt cue has non-empty text, but only non-empty — the vtt decoder checks the
joined text before trimming, so whitespace-only text (empty after trimming)
can surface, with a negative start (see the counterexample). -/
theorem C7_cue_invariant_amended :
    (∀ (data : Json3Data) (c : Cue), c ∈ parse_json3_transcript data →
      pyStrip c.text = c.text ∧ c.text ≠ "") ∧
    (∀ (es : List Srv1Elem) (cs : List Cue), parse_srv1_transcript es = some cs →
      ∀ c ∈ cs, pyStrip c.text = c.text ∧ c.text ≠ "") ∧
    (∀ (s : String) (c : Cue), c ∈ parse_vtt_transcript s → c.text ≠ "") := by
  refine ⟨?_, ?_, ?_⟩
  · intro data c hc
    exact json3_text_facts (data.events.getD []) c hc
  · intro es cs hcs c hc
    exact srv1_text_facts es cs hcs c hc
  · intro s c hc
    exact vtt_text_facts _ _ c hc

/-- C7 witness: the amended theorem applied to one concrete payload per
decoder. -/
theorem C7_cue_invariant_amended_witness :
    (pyStrip "Hello world." = "Hello world." ∧ ("Hello world." : String) ≠ "") ∧
    (pyStrip "Hi" = "Hi" ∧ ("Hi" : String) ≠ "") ∧
    ("hello" : String) ≠ "" := by
  refine ⟨?_, ?_, ?_⟩
  · exact C7_cue_invariant_amended.1
      (Json3Data.mk (some [Json3Event.mk (some 1000) (some 2000)
        (some [Json3Seg.mk (some "Hello "), Json3Seg.mk (some "world.")])]))
      (Cue.mk "Hello world." 1 2) (by decide)
  · exact C7_cue_invariant_amended.right.left
      [Srv1Elem.mk (some "2.5") (some "1.0") (some "Hi")]
      [Cue.mk "Hi" (mkRat 5 2) 1] (by decide) (Cue.mk "Hi" (mkRat 5 2) 1) (by decide)
  · exact C7_cue_invariant_amended.right.right "0:0:1 --> x\nhello"
      (Cue.mk "hello" 1 0) (by decide)

/-
Claim C8.
-/

theorem ja_not_ws {c : Char} (h : isJaChar c = true) : pyWs c = false := by
  cases hw : pyWs c
  · rfl
  · rcases pyWs_true_cases hw with rfl | rfl | rfl | rfl | rfl | rfl <;>
      exact absurd h (by decide)

theorem removeAllGo_not_head_mem (p : Char) (ps : List Char) :
    ∀ (fuel : Nat) (xs : List Char), p ∉ xs → removeAllGo (p :: ps) fuel xs = xs := by
  intro fuel
  induction fuel with
  | zero => intro xs h; cases xs <;> rfl
  | succ n ih =>
    intro xs h
    cases xs with
    | nil => rfl
    | cons c rest =>
      have hpc : (p == c) = false := by
        have hne : p ≠ c := fun he => h (he ▸ List.mem_cons_self c rest)
        simpa using hne
      have h2 : p ∉ rest := fun hm => h (List.mem_cons_of_mem c hm)
      simp only [removeAllGo, List.isPrefixOf, hpc, Bool.false_and, Bool.false_eq_true,
        if_false, ih rest h2]

theorem removeAll_head_not_mem (pat : List Char) {xs : List Char} {p : Char}
    (hp : pat.head? = some p) (hm : p ∉ xs) : removeAll pat xs = xs := by
  cases pat with
  | nil => simp at hp
  | cons q ps =>
    simp only [List.head?, Option.some.injEq] at hp
    subst hp
    rw [removeAll, if_neg (by simp)]
    exact removeAllGo_not_head_mem _ _ _ _ hm

theorem removeAllGo_single_filter (c₀ : Char) :
    ∀ (fuel : Nat) (xs : List Char), xs.length ≤ fuel →
      removeAllGo [c₀] fuel xs = xs.filter (fun d => !(d == c₀)) := by
  intro fuel
  induction fuel with
  | zero =>
    intro xs h
    have hx : xs = [] := List.eq_nil_of_length_eq_zero (Nat.le_zero.mp h)
    subst hx
    rfl
  | succ n ih =>
    intro xs h
    cases xs with
    | nil => rfl
    | cons c rest =>
      simp only [List.length_cons, Nat.succ_le_succ_iff] at h
      by_cases hc : c₀ = c
      · subst hc
        rw [show removeAllGo [c₀] (n + 1) (c₀ :: rest) = removeAllGo [c₀] n rest from by
          simp [removeAllGo, List.isPrefixOf]]
        rw [ih rest h]
        simp [List.filter_cons]
      · have hne : c ≠ c₀ := fun he => hc he.symm
        have hbc : (c == c₀) = false := by simpa using hne
        have hcb : (c₀ == c) = false := by simpa using hc
        rw [show removeAllGo [c₀] (n + 1) (c :: rest) = c :: removeAllGo [c₀] n rest from by
          simp [removeAllGo, List.isPrefixOf, hcb]]
        rw [ih rest h]
        simp [List.filter_cons, hbc]

theorem removeAll_single_filter (c₀ : Char) (xs : List Char) :
    removeAll [c₀] xs = xs.filter (fun d => !(d == c₀)) := by
  rw [removeAll, if_neg (by simp)]
  exact removeAllGo_single_filter c₀ xs.length xs (Nat.le_refl _)

theorem not_mem_removeAll_single_self (c₀ : Char) (xs : List Char) :
    c₀ ∉ removeAll [c₀] xs := by
  rw [removeAll_single_filter]
  intro h
  have h2 := (List.mem_filter.mp h).2
  simp at h2

theorem removeAllGo_subset (pat : List Char) :
    ∀ (fuel : Nat) (xs : List Char) (d : Char), d ∈ removeAllGo pat fuel xs → d ∈ xs := by
  intro fuel
  induction fuel with
  | zero =>
    intro xs d hd
    cases xs with
    | nil => simpa [removeAllGo] using hd
    | cons x rest => exact hd
  | succ n ih =>
    intro xs d hd
    cases xs with
    | nil => simpa [removeAllGo] using hd
    | cons x rest =>
      simp only [removeAllGo] at hd
      by_cases hp : pat.isPrefixOf (x :: rest) = true
      · rw [if_pos hp] at hd
        exact List.mem_of_mem_drop (ih _ d hd)
      · rw [if_neg hp] at hd
        rcases List.mem_cons.mp hd with h1 | h2
        · exact h1 ▸ List.mem_cons_self x rest
        · exact List.mem_cons_of_mem x (ih rest d h2)

theorem removeAll_subset (pat xs : List Char) (d : Char) (hd : d ∈ removeAll pat xs) :
    d ∈ xs := by
  rw [removeAll] at hd
  by_cases hp : pat = []
  · rw [if_pos hp] at hd
    exact hd
  · rw [if_neg hp] at hd
    exact removeAllGo_subset pat xs.length xs d hd

theorem foldl_removeAll_subset (tags : List String) :
    ∀ (xs : List Char) (d : Char),
      d ∈ tags.foldl (fun acc tag => removeAll tag.data acc) xs → d ∈ xs := by
  induction tags with
  | nil => intro xs d hd; simpa using hd
  | cons t ts ih =>
    intro xs d hd
    simp only [List.foldl_cons] at hd
    exact removeAll_subset t.data xs d (ih (removeAll t.data xs) d hd)

theorem removeTagsCore_subset {xs : List Char} {d : Char}
    (hd : d ∈ removeTagsCore xs) : d ∈ xs :=
  foldl_removeAll_subset music_tags xs d hd

/-- The ten `replace` calls of utils.py lines 45-47, unfolded. -/
theorem removeTagsCore_unfold (xs : List Char) :
    removeTagsCore xs =
      removeAll ("[効果音]".data) (removeAll ("[音響効果]".data) (removeAll ("[笑]".data)
        (removeAll ("[笑い]".data) (removeAll ("[拍手]".data) (removeAll ("♩".data)
          (removeAll ("♬".data) (removeAll ("♫".data) (removeAll ("♪".data)
            (removeAll ("[音楽]".data) xs))))))))) := by
  simp only [removeTagsCore, music_tags, List.foldl]

theorem removeTagsCore_id_of {xs : List Char} (h1 : '[' ∉ xs) (h2 : '♪' ∉ xs)
    (h3 : '♫' ∉ xs) (h4 : '♬' ∉ xs) (h5 : '♩' ∉ xs) : removeTagsCore xs = xs := by
  rw [removeTagsCore_unfold,
    removeAll_head_not_mem ("[音楽]".data) rfl h1,
    removeAll_head_not_mem ("♪".data) rfl h2,
    removeAll_head_not_mem ("♫".data) rfl h3,
    removeAll_head_not_mem ("♬".data) rfl h4,
    removeAll_head_not_mem ("♩".data) rfl h5,
    removeAll_head_not_mem ("[拍手]".data) rfl h1,
    removeAll_head_not_mem ("[笑い]".data) rfl h1,
    removeAll_head_not_mem ("[笑]".data) rfl h1,
    removeAll_head_not_mem ("[音響効果]".data) rfl h1,
    removeAll_head_not_mem ("[効果音]".data) rfl h1]

theorem singles_not_mem_removeTagsCore (xs : List Char) :
    '♪' ∉ removeTagsCore xs ∧ '♫' ∉ removeTagsCore xs ∧
      '♬' ∉ removeTagsCore xs ∧ '♩' ∉ removeTagsCore xs := by
  rw [removeTagsCore_unfold]
  refine ⟨?_, ?_, ?_, ?_⟩
  · intro h
    have h := removeAll_subset _ _ _ h
    have h := removeAll_subset _ _ _ h
    have h := removeAll_subset _ _ _ h
    have h := removeAll_subset _ _ _ h
    have h := removeAll_subset _ _ _ h
    have h := removeAll_subset _ _ _ h
    have h := removeAll_subset _ _ _ h
    have h := removeAll_subset _ _ _ h
    exact not_mem_removeAll_single_self '♪' _ h
  · intro h
    have h := removeAll_subset _ _ _ h
    have h := removeAll_subset _ _ _ h
    have h := removeAll_subset _ _ _ h
    have h := removeAll_subset _ _ _ h
    have h := removeAll_subset _ _ _ h
    have h := removeAll_subset _ _ _ h
    have h := removeAll_subset _ _ _ h
    exact not_mem_removeAll_single_self '♫' _ h
  · intro h
    have h := removeAll_subset _ _ _ h
    have h := removeAll_subset _ _ _ h
    have h := removeAll_subset _ _ _ h
    have h := removeAll_subset _ _ _ h
    have h := removeAll_subset _ _ _ h
    have h := removeAll_subset _ _ _ h
    exact not_mem_removeAll_single_self '♬' _ h
  · intro h
    have h := removeAll_subset _ _ _ h
    have h := removeAll_subset _ _ _ h
    have h := removeAll_subset _ _ _ h
    have h := removeAll_subset _ _ _ h
    have h := removeAll_subset _ _ _ h
    exact not_mem_removeAll_single_self '♩' _ h

theorem jaCollapseGo_no_ws :
    ∀ (fuel : Nat) (xs : List Char), (∀ c ∈ xs, pyWs c = false) →
      jaCollapseGo fuel xs = xs := by
  intro fuel
  induction fuel with
  | zero => intro xs h; cases xs <;> rfl
  | succ n ih =>
    intro xs h
    cases xs with
    | nil => rfl
    | cons c rest =>
      have hrest : ∀ d ∈ rest, pyWs d = false :=
        fun d hd => h d (List.mem_cons_of_mem c hd)
      have htl : jaCollapseGo n rest = rest := ih rest hrest
      by_cases hja : isJaChar c = true
      · cases rest with
        | nil => simp [jaCollapseGo, hja]
        | cons r rs =>
          have htw : List.takeWhile pyWs (r :: rs) = [] := by
            simp [List.takeWhile_cons, hrest r (List.mem_cons_self r rs)]
          simp only [jaCollapseGo, hja, htw, List.length_nil, List.drop_zero, if_true]
          simp [htl]
      · simp [jaCollapseGo, hja, htl]

theorem jaCollapse_no_ws {xs : List Char} (h : ∀ c ∈ xs, pyWs c = false) :
    jaCollapse xs = xs :=
  jaCollapseGo_no_ws xs.length xs h

theorem jaCollapseGo_subset :
    ∀ (fuel : Nat) (xs : List Char) (d : Char), d ∈ jaCollapseGo fuel xs → d ∈ xs := by
  intro fuel
  induction fuel with
  | zero =>
    intro xs d hd
    cases xs with
    | nil => simpa [jaCollapseGo] using hd
    | cons c rest => exact hd
  | succ n ih =>
    intro xs d hd
    cases xs with
    | nil => simpa [jaCollapseGo] using hd
    | cons c rest =>
      simp only [jaCollapseGo] at hd
      split at hd
      · split at hd
        · rename_i c2 rest3 heq
          split at hd
          · rcases List.mem_cons.mp hd with h1 | h2
            · exact h1 ▸ List.mem_cons_self c rest
            · rcases List.mem_cons.mp h2 with h3 | h4
              · have hmd : d ∈ List.drop (List.takeWhile pyWs rest).length rest := by
                  rw [heq, h3]
                  exact List.mem_cons_self _ _
                exact List.mem_cons_of_mem c (List.mem_of_mem_drop hmd)
              · have hmd : d ∈ List.drop (List.takeWhile pyWs rest).length rest := by
                  rw [heq]
                  exact List.mem_cons_of_mem c2 (ih rest3 d h4)
                exact List.mem_cons_of_mem c (List.mem_of_mem_drop hmd)
          · rcases List.mem_cons.mp hd with h1 | h2
            · exact h1 ▸ List.mem_cons_self c rest
            · exact List.mem_cons_of_mem c (ih rest d h2)
        · rcases List.mem_cons.mp hd with h1 | h2
          · exact h1 ▸ List.mem_cons_self c rest
          · exact List.mem_cons_of_mem c (ih rest d h2)
      · rcases List.mem_cons.mp hd with h1 | h2
        · exact h1 ▸ List.mem_cons_self c rest
        · exact List.mem_cons_of_mem c (ih rest d h2)

theorem jaCollapse_subset {xs : List Char} {d : Char} (hd : d ∈ jaCollapse xs) : d ∈ xs :=
  jaCollapseGo_subset xs.length xs d hd

theorem collapseWs_no_ws : ∀ (xs : List Char), (∀ c ∈ xs, pyWs c = false) →
    collapseWs xs = xs := by
  intro xs
  induction xs with
  | nil => intro h; rfl
  | cons c rest ih =>
    intro h
    have hc : pyWs c = false := h c (List.mem_cons_self c rest)
    have hr := ih (fun d hd => h d (List.mem_cons_of_mem c hd))
    simp [collapseWs, hc, hr]

theorem collapseWs_mem : ∀ (xs : List Char) (d : Char),
    d ∈ collapseWs xs → d ∈ xs ∨ d = ' ' := by
  intro xs
  induction xs with
  | nil => intro d hd; simpa [collapseWs] using hd
  | cons c rest ih =>
    intro d hd
    simp only [collapseWs] at hd
    split at hd
    · split at hd
      · rename_i ds heq
        rcases List.mem_cons.mp hd with h1 | h2
        · exact Or.inr h1
        · have h3 : d ∈ collapseWs rest := by
            rw [heq]
            exact List.mem_cons_of_mem ' ' h2
          rcases ih d h3 with h4 | h4
          · exact Or.inl (List.mem_cons_of_mem c h4)
          · exact Or.inr h4
      · rcases List.mem_cons.mp hd with h1 | h2
        · exact Or.inr h1
        · rcases ih d h2 with h4 | h4
          · exact Or.inl (List.mem_cons_of_mem c h4)
          · exact Or.inr h4
    · rcases List.mem_cons.mp hd with h1 | h2
      · exact Or.inl (h1 ▸ List.mem_cons_self c rest)
      · rcases ih d h2 with h4 | h4
        · exact Or.inl (List.mem_cons_of_mem c h4)
        · exact Or.inr h4

/-- C8 counterexample: cleanup is not idempotent.  Because `re.sub` matches
do not overlap, "あ い う" cleans to "あい う", and cleaning that again
gives "あいう"; moreover the space-collapsing step can re-form a music tag
that the (earlier) tag-removal step no longer sees, so a cleaned string can
still contain "[音楽]". -/
theorem C8_counterexample :
    clean_japanese_text (clean_japanese_text "あ い う") ≠ clean_japanese_text "あ い う" ∧
    clean_japanese_text "あ い う" = "あい う" ∧
    containsSub ("[音楽]".data) (clean_japanese_text "[[音楽]音楽]").data = true := by
  decide

theorem data_mk (l : List Char) : (String.mk l).data = l := rfl

theorem singles_not_mem_clean (t : String) :
    ∀ c₀ ∈ (['♪', '♫', '♬', '♩'] : List Char), c₀ ∉ (clean_japanese_text t).data := by
  intro c₀ hc₀ hmem
  simp only [clean_japanese_text, data_mk, cleanJaCore] at hmem
  have h1 : c₀ ∈ collapseWs (jaCollapse (removeTagsCore t.data)) :=
    pyStripL_subset hmem
  have h2 : c₀ ∈ jaCollapse (removeTagsCore t.data) ∨ c₀ = ' ' :=
    collapseWs_mem _ c₀ h1
  have h3 : c₀ ∈ removeTagsCore t.data := by
    rcases h2 with h2 | h2
    · exact jaCollapse_subset h2
    · subst h2
      exact absurd hc₀ (by decide)
  obtain ⟨hs1, hs2, hs3, hs4⟩ := singles_not_mem_removeTagsCore t.data
  rcases List.mem_cons.mp hc₀ with rfl | hc₀
  · exact hs1 h3
  rcases List.mem_cons.mp hc₀ with rfl | hc₀
  · exact hs2 h3
  rcases List.mem_cons.mp hc₀ with rfl | hc₀
  · exact hs3 h3
  rcases List.mem_cons.mp hc₀ with rfl | hc₀
  · exact hs4 h3
  exact absurd hc₀ (List.not_mem_nil c₀)

/-- C8 amended: the two-character collapse of the claim holds — for any two
characters of the secondary script ranges, cleaning "a b" yields "ab" —
and the single-character music glyphs are fully removed from every cleaned
string; but cleanup is idempotent only on inputs free of whitespace and of
the bracket character (on which it is the pointwise glyph filter): in
general a second pass can differ from the first, because whitespace
collapsing is non-overlapping and can also re-form a bracket tag. -/
theorem C8_cleanup_amended :
    (∀ a b : Char, isJaChar a = true → isJaChar b = true →
      clean_japanese_text ⟨[a, ' ', b]⟩ = ⟨[a, b]⟩) ∧
    (∀ t : String, ∀ c₀ ∈ (['♪', '♫', '♬', '♩'] : List Char),
      c₀ ∉ (clean_japanese_text t).data) ∧
    (∀ t : String, (∀ c ∈ t.data, pyWs c = false ∧ c ≠ '[') →
      clean_japanese_text (clean_japanese_text t) = clean_japanese_text t) := by
  refine ⟨?_, singles_not_mem_clean, ?_⟩
  · intro a b ha hb
    have haw : pyWs a = false := ja_not_ws ha
    have hbw : pyWs b = false := ja_not_ws hb
    have hnotin : ∀ d : Char, isJaChar d = false → d ≠ ' ' → d ∉ [a, ' ', b] := by
      intro d hdj hds hm
      simp only [List.mem_cons, List.not_mem_nil, or_false] at hm
      rcases hm with rfl | rfl | rfl
      · rw [ha] at hdj
        exact absurd hdj (by decide)
      · exact hds rfl
      · rw [hb] at hdj
        exact absurd hdj (by decide)
    have hrt : removeTagsCore [a, ' ', b] = [a, ' ', b] :=
      removeTagsCore_id_of (hnotin '[' (by decide) (by decide))
        (hnotin '♪' (by decide) (by decide)) (hnotin '♫' (by decide) (by decide))
        (hnotin '♬' (by decide) (by decide)) (hnotin '♩' (by decide) (by decide))
    have hjc : jaCollapse [a, ' ', b] = [a, b] := by
      show jaCollapseGo (0 + 1 + 1 + 1) [a, ' ', b] = [a, b]
      simp only [jaCollapseGo, ha, hb, List.takeWhile_cons,
        show pyWs ' ' = true from rfl, hbw, if_true, Bool.false_eq_true, if_false]
      simp [hb, jaCollapseGo]
    have hnw2 : ∀ c ∈ ([a, b] : List Char), pyWs c = false := by
      intro c hc
      rcases List.mem_cons.mp hc with rfl | hc
      · exact haw
      rcases List.mem_cons.mp hc with rfl | hc
      · exact hbw
      exact absurd hc (List.not_mem_nil c)
    show (⟨cleanJaCore [a, ' ', b]⟩ : String) = ⟨[a, b]⟩
    rw [cleanJaCore, hrt, hjc, collapseWs_no_ws _ hnw2, pyStripL_of_no_ws hnw2]
  · intro t h
    have hws : ∀ c ∈ t.data, pyWs c = false := fun c hc => (h c hc).1
    have hbr : '[' ∉ t.data := fun hm => (h '[' hm).2 rfl
    have hws' : ∀ c ∈ removeTagsCore t.data, pyWs c = false :=
      fun c hc => hws c (removeTagsCore_subset hc)
    have hclean1 : cleanJaCore t.data = removeTagsCore t.data := by
      rw [cleanJaCore, jaCollapse_no_ws hws', collapseWs_no_ws _ hws',
        pyStripL_of_no_ws hws']
    have hbr' : '[' ∉ removeTagsCore t.data := fun hm => hbr (removeTagsCore_subset hm)
    obtain ⟨hs1, hs2, hs3, hs4⟩ := singles_not_mem_removeTagsCore t.data
    have hrt2 : removeTagsCore (removeTagsCore t.data) = removeTagsCore t.data :=
      removeTagsCore_id_of hbr' hs1 hs2 hs3 hs4
    have hclean2 : cleanJaCore (removeTagsCore t.data) = removeTagsCore t.data := by
      rw [cleanJaCore, hrt2, jaCollapse_no_ws hws', collapseWs_no_ws _ hws',
        pyStripL_of_no_ws hws']
    simp only [clean_japanese_text, data_mk]
    rw [hclean1, hclean2]

/-- C8 witness: the amended theorem at concrete inputs — collapsing
"あ い", glyph removal for "♪テスト", and idempotence on "abc". -/
theorem C8_cleanup_amended_witness :
    clean_japanese_text "あ い" = "あい" ∧
    '♪' ∉ (clean_japanese_text "♪テスト").data ∧
    clean_japanese_text (clean_japanese_text "abc") = clean_japanese_text "abc" := by
  refine ⟨?_, ?_, ?_⟩
  · rw [show ("あ い" : String) = ⟨['あ', ' ', 'い']⟩ from rfl,
      show ("あい" : String) = ⟨['あ', 'い']⟩ from rfl]
    exact C8_cleanup_amended.1 'あ' 'い' (by decide) (by decide)
  · exact C8_cleanup_amended.2.1 "♪テスト" '♪' (by decide)
  · exact C8_cleanup_amended.2.2 "abc" (by decide)
